import Mathlib

/-!
Shallow embedding of the pattern-localization core of the repository
(`src/localization/subgraphs.py` and `src/localization/run.py`), together
with theorems settling the specification claims about it.

Modelling conventions:
* Python node ids are `Nat`; node attribute dictionaries become `NodeAttrs`
  with one `Option String` field per attribute that the code reads
  (an absent key is `none`).
* A networkx `MultiDiGraph` becomes a list of `(id, attrs)` nodes plus a
  multiset of `(source, destination, kind)` edges represented as a list;
  parallel edges are separate list entries.
* A Python `KeyError` becomes the `Except LocError` monad: `LocError.colorKey`
  models the `KeyError` raised by `attrs['color']` on a node without a
  `color` attribute, and `LocError.missingHintKey` models the
  `KeyError('Use NxGraphCreator.create_from_pattern_fragments() method')`
  raised by `SubgraphSeeker._are_nodes_equal`.
-/

/-- A mapping as yielded by the matcher: an association list of
`(target node id, pattern node id)` pairs, modelling the Python dict. -/
abbrev Mapping := List (Nat × Nat)

/-- Attribute dictionary of one graph node; each field is `none` when the
corresponding key is absent from the Python attribute dict. -/
structure NodeAttrs where
  label : Option String
  original_label : Option String
  color : Option String
  longest_common_var_name_suffix : Option String
deriving DecidableEq, Repr

/-- A networkx `MultiDiGraph`: labelled nodes and a multiset of directed
edges `(source, destination, kind)`; parallel edges are separate entries. -/
structure MultiDiGraph where
  nodes : List (Nat × NodeAttrs)
  edges : List (Nat × Nat × String)
deriving DecidableEq, Repr

/-- The two `KeyError`s the localization code can raise. -/
inductive LocError where
  | colorKey
  | missingHintKey
deriving DecidableEq, Repr

/-- Number of parallel edges from `u` to `v`, counted regardless of kind;
this is networkx `G.number_of_edges(u, v)` on a `MultiDiGraph`. -/
def numberOfEdges (g : MultiDiGraph) (u v : Nat) : Nat :=
  (g.edges.filter (fun e => e.1 == u && e.2.1 == v)).length

/-- Number of edges from `u` to `v` carrying kind `k` (used to state the
spec's per-kind multiplicity condition; the code itself never compares
kinds). -/
def numberOfEdgesOfKind (g : MultiDiGraph) (u v : Nat) (k : String) : Nat :=
  (g.edges.filter (fun e => e.1 == u && e.2.1 == v && e.2.2 == k)).length

/-- Python `str.startswith`, computed on the character lists (the library's
`String.startsWith` is not reducible by the kernel). -/
def charListIsInit : List Char → List Char → Bool
  | [], _ => true
  | _ :: _, [] => false
  | a :: as, b :: bs => a == b && charListIsInit as bs

def strStartsWith (s p : String) : Bool := charListIsInit p.data s.data

/-- Python `str.endswith`, computed on the character lists. -/
def strEndsWith (s p : String) : Bool := charListIsInit p.data.reverse s.data.reverse

/-- Attribute dictionary of node `v`, when `v` is a node of `g`. -/
def attrsOf (g : MultiDiGraph) (v : Nat) : Option NodeAttrs :=
  (g.nodes.find? (fun nv => nv.1 == v)).map Prod.snd

/-- Embedding of `SubgraphSeeker._are_nodes_equal` (src/localization/subgraphs.py,
lines 21-33).  The Python function first returns `False` when any of the four
attribute lookups is missing; then, when both labels start with `"var"`, it
raises `KeyError` if the pattern node has no `longest_common_var_name_suffix`
and otherwise tests whether the target's `original_label` ends with that
suffix (the trailing `or lcs is None` of the Python expression is dead once
the `raise` has fired); otherwise it compares `label` and `original_label`
for exact equality. -/
def are_nodes_equal (target_node pattern_node : NodeAttrs) : Except LocError Bool :=
  match target_node.label, target_node.original_label,
        pattern_node.label, pattern_node.original_label with
  | some tl, some tol, some pl, some pol =>
    if strStartsWith pl "var" && strStartsWith tl "var" then
      match pattern_node.longest_common_var_name_suffix with
      | none => .error .missingHintKey
      | some lcs => .ok (strEndsWith tol lcs)
    else
      .ok (pl == tl && pol == tol)
  | _, _, _, _ => .ok false

/-- Variable category test used by the spec-side reference predicate:
the node's `label` lies in the variable category. -/
def isVariableCategory (n : NodeAttrs) : Bool :=
  match n.label with
  | some l => strStartsWith l "var"
  | none => false

/-- Reference node-compatibility predicate written from the specification's
words (§4.1): fails (incompatible) if either node lacks `label` or
`original_label`; if both nodes are variable-category it requires the
pattern node's suffix hint, signalling its absence distinctly, and is
otherwise compatible iff the target's `original_label` ends with the hint;
in all remaining cases compatible iff `label` and `original_label` are
exactly equal on both sides. -/
def compatibleSpec (pattern_node target_node : NodeAttrs) : Except LocError Bool :=
  if pattern_node.label.isNone || pattern_node.original_label.isNone
      || target_node.label.isNone || target_node.original_label.isNone then
    .ok false
  else if isVariableCategory pattern_node && isVariableCategory target_node then
    match pattern_node.longest_common_var_name_suffix with
    | none => .error .missingHintKey
    | some h =>
      match target_node.original_label with
      | some tol => .ok (strEndsWith tol h)
      | none => .ok false
  else
    .ok (pattern_node.label == target_node.label
      && pattern_node.original_label == target_node.original_label)

/-- C5: the implemented node-compatibility predicate agrees with the
reference definition from the spec on every pair of attribute dictionaries
(arguments swapped: the code takes the target node first). -/
theorem c5_node_compatibility_matches_reference :
    ∀ t p : NodeAttrs, are_nodes_equal t p = compatibleSpec p t := by
  rintro ⟨tl, tol, tc, tlcs⟩ ⟨pl, pol, pc, plcs⟩
  cases tl <;> cases tol <;> cases pl <;> cases pol <;>
    simp [are_nodes_equal, compatibleSpec, isVariableCategory]

/-- Embedding of the list comprehension at src/localization/subgraphs.py
lines 12-13: collect the ids of the nodes whose `color` attribute equals
`"red2"` (the `before` phase tag); reading `attrs['color']` on a node
without the attribute raises `KeyError`, which fires at the first such node. -/
def selectRed2 : List (Nat × NodeAttrs) → Except LocError (List Nat)
  | [] => .ok []
  | nv :: rest =>
    match nv.2.color with
    | none => .error .colorKey
    | some c =>
      match selectRed2 rest with
      | .error e => .error e
      | .ok tail => .ok (if c == "red2" then nv.1 :: tail else tail)

/-- Embedding of networkx `Graph.subgraph(keep)`: the subgraph induced by
the listed node ids (nodes restricted to the list, edges whose two
endpoints are both kept). -/
def inducedSubgraph (g : MultiDiGraph) (keep : List Nat) : MultiDiGraph :=
  { nodes := g.nodes.filter (fun nv => keep.contains nv.1)
    edges := g.edges.filter (fun e => keep.contains e.1 && keep.contains e.2.1) }

/-- Truth of a successful compatibility test; an error counts as not
compatible (it can only be consulted under `hintSafe`, which rules errors
out). -/
def areNodesEqualOk (t p : NodeAttrs) : Bool :=
  match are_nodes_equal t p with
  | .ok b => b
  | .error _ => false

def exceptIsOk : Except LocError Bool → Bool
  | .ok _ => true
  | .error _ => false

/-- No pair of a target node and a query node makes the compatibility
predicate raise.  The Python `KeyError` fires when the VF2 search consults
a variable/variable pair whose pattern node lacks its suffix hint; the
embedding over-approximates the set of consulted pairs by all pairs, which
coincides with the code whenever the search would consult every pair or no
pair can raise at all. -/
def hintSafe (tg pb : MultiDiGraph) : Bool :=
  tg.nodes.all fun t => pb.nodes.all fun p => exceptIsOk (are_nodes_equal t.2 p.2)

/-- All injective assignments pairing each query node id of `ps` (in order)
with a distinct target node id drawn from `ts`; each assignment is listed as
`(target id, pattern id)` pairs, the key order of the dict yielded by
networkx being irrelevant to the claims. -/
def injAssignments (ts : List Nat) : List Nat → List (List (Nat × Nat))
  | [] => [[]]
  | p :: ps =>
    (injAssignments ts ps).flatMap fun m =>
      (ts.filter (fun t => m.all (fun x => x.1 != t))).map (fun t => (t, p) :: m)

/-- Every mapped pair passes the node-match callback; networkx calls
`node_match(G1.nodes[t], G2.nodes[p])`, i.e. target attributes first. -/
def nodeCompatAll (tg pb : MultiDiGraph) (m : List (Nat × Nat)) : Bool :=
  m.all fun x =>
    match attrsOf tg x.1, attrsOf pb x.2 with
    | some ta, some pa => areNodesEqualOk ta pa
    | _, _ => false

/-- Induced-subgraph edge condition of networkx VF2 for multigraphs: for
every ordered pair of mapped nodes (self-loops included) the number of
parallel target edges equals the number of parallel query edges; kinds are
not compared because the matcher is built without an `edge_match`. -/
def edgeCountsExact (tg pb : MultiDiGraph) (m : List (Nat × Nat)) : Bool :=
  m.all fun x => m.all fun y =>
    numberOfEdges tg x.1 y.1 == numberOfEdges pb x.2 y.2

def isValidMapping (tg pb : MultiDiGraph) (m : List (Nat × Nat)) : Bool :=
  nodeCompatAll tg pb m && edgeCountsExact tg pb m

/-- Declarative semantics of networkx
`MultiDiGraphMatcher(G1=tg, G2=pb, node_match).subgraph_isomorphisms_iter()`:
all injective maps of the query nodes onto distinct target nodes such that
node compatibility holds pairwise and the subgraph of `tg` induced by the
chosen targets matches `pb` edge-for-edge (equal parallel-edge counts for
every ordered pair).  Each element lists `(target id, pattern id)` pairs:
the yielded dicts are keyed by nodes of `G1`, the target. -/
def allMappings (tg pb : MultiDiGraph) : List (List (Nat × Nat)) :=
  (injAssignments (tg.nodes.map Prod.fst) (pb.nodes.map Prod.fst)).filter
    (isValidMapping tg pb)

/-- Embedding of `SubgraphSeeker.find_isomorphic_subgraphs`
(src/localization/subgraphs.py, lines 11-19): restrict the pattern to its
`red2`-coloured nodes (raising `KeyError` when a node lacks `color`), run
the networkx subgraph-isomorphism matcher over the full target graph, and
return `none` when no isomorphism exists, otherwise the (lazy, here fully
listed) sequence of mappings.  A hint `KeyError` raised by the node-match
callback during the search propagates out. -/
def find_isomorphic_subgraphs (tg pattern_graph : MultiDiGraph) :
    Except LocError (Option (List Mapping)) :=
  match selectRed2 pattern_graph.nodes with
  | .error e => .error e
  | .ok ids =>
    let pb := inducedSubgraph pattern_graph ids
    if hintSafe tg pb then
      let ms := allMappings tg pb
      if ms.isEmpty then .ok none else .ok (some ms)
    else .error .missingHintKey

/-- Python `dict.setdefault(k, []).append(v)` on an insertion-ordered
association list from keys to lists: append `v` to the list at the first
entry with key `k`, or add a new entry `(k, [v])` at the end. -/
def setdefaultAppend {β : Type} : List (Nat × List β) → Nat → β → List (Nat × List β)
  | [], k, v => [(k, [v])]
  | kl :: rest, k, v =>
    if kl.1 == k then (kl.1, kl.2 ++ [v]) :: rest
    else kl :: setdefaultAppend rest k v

/-- Python `dict.get(k, None)` on the same association lists. -/
def lookupDict {β : Type} : List (Nat × List β) → Nat → Option (List β)
  | [], _ => none
  | kl :: rest, k => if kl.1 == k then some kl.2 else lookupDict rest k

/-- Left fold whose step may raise, stopping at the first error — the shape
of a Python `for` loop whose body may raise an uncaught exception. -/
def foldExcept {σ α ε : Type} (step : σ → α → Except ε σ) : σ → List α → Except ε σ
  | st, [] => .ok st
  | st, a :: as =>
    match step st a with
    | .error e => .error e
    | .ok st' => foldExcept step st' as

/-- Dictionary kept by `locate_pattern_by_subgraph_from_source`: pattern
size to the list of `(yielded mappings, pattern path)` entries recorded at
that size. -/
abbrev GraphDict := List (Nat × List (List Mapping × String))

/-- Body of the candidate loop of `locate_pattern_by_subgraph_from_source`
(src/localization/run.py, lines 64-70): call the seeker; on `None` skip;
otherwise, when the full pattern's node count strictly exceeds the running
maximum, update the maximum and record the `(generator, path)` pair under
the new maximum. -/
def subgraphLocStep (tg : MultiDiGraph) (st : Nat × GraphDict)
    (pp : String × MultiDiGraph) : Except LocError (Nat × GraphDict) :=
  match find_isomorphic_subgraphs tg pp.2 with
  | .error e => .error e
  | .ok none => .ok st
  | .ok (some ms) =>
    if st.1 < pp.2.nodes.length then
      .ok (pp.2.nodes.length, setdefaultAppend st.2 pp.2.nodes.length (ms, pp.1))
    else .ok st

/-- Embedding of `locate_pattern_by_subgraph_from_source`
(src/localization/run.py, lines 58-81): loop over the candidate patterns in
caller order, then report `result_mappings.get(max_size, None)` — the
reported outcome is the final maximum together with the entry list stored
under it, `none` when nothing was recorded there. -/
def locate_pattern_by_subgraph_from_source
    (pats : List (String × MultiDiGraph)) (tg : MultiDiGraph) :
    Except LocError (Nat × Option (List (List Mapping × String))) :=
  match foldExcept (subgraphLocStep tg) (0, []) pats with
  | .error e => .error e
  | .ok st => .ok (st.1, lookupDict st.2 st.1)

/-- A pattern subtree fragment as consumed by the subtree locator loop: the
loop only reads its node list's length (`len(subtree.nodes)`). -/
structure Subtree where
  nodes : List Nat
deriving DecidableEq, Repr

/-- Modelled from the spec: `get_maximal_subtree` lives in
`common/utils.py`, which is not under `src/`; per spec §4.3 it returns the
candidate fragment with the greatest node count, ties broken by first
occurrence in the input order, and an empty input is a precondition
violation (modelled as `none`). -/
def get_maximal_subtree (frags : List Subtree) : Option Subtree :=
  frags.foldl
    (fun acc f =>
      match acc with
      | none => some f
      | some g => if g.nodes.length < f.nodes.length then some f else some g)
    none

/-- Dictionary kept by `locate_pattern_by_subtree`: subtree size to the list
of `(mapping, pattern path)` entries recorded at that size. -/
abbrev TreeDict := List (Nat × List (Mapping × String))

/-- Body of the candidate loop of `locate_pattern_by_subtree`
(src/localization/run.py, lines 37-43): call the seeker
(`SubtreeSeeker.find_isomorphic_subtree`, not under `src/`, abstracted as
the function argument); on `None` skip; otherwise, when the selected
fragment's node count is greater than OR EQUAL to the running maximum,
update the maximum and record the `(mapping, path)` pair under it. -/
def subtreeLocStep (find : Subtree → Option Mapping) (st : Nat × TreeDict)
    (item : String × Subtree) : Nat × TreeDict :=
  match find item.2 with
  | none => st
  | some m =>
    if st.1 ≤ item.2.nodes.length then
      (item.2.nodes.length, setdefaultAppend st.2 item.2.nodes.length (m, item.1))
    else st

/-- Embedding of `locate_pattern_by_subtree` (src/localization/run.py,
lines 18-55): select each pattern's maximal fragment, loop over the
selected fragments in caller order, then report
`result_mappings.get(max_size, None)`.  The whole call is `none` when some
fragment list defeats `get_maximal_subtree`. -/
def locate_pattern_by_subtree (find : Subtree → Option Mapping)
    (items : List (String × List Subtree)) :
    Option (Nat × Option (List (Mapping × String))) :=
  match items.mapM (fun it => (get_maximal_subtree it.2).map (fun s => (it.1, s))) with
  | none => none
  | some selected =>
    let st := selected.foldl (subtreeLocStep find) (0, [])
    some (st.1, lookupDict st.2 st.1)

/-- Ranking step as the spec states it: a strength strictly greater than
the running maximum resets the result set to that single candidate; a
strength equal to the maximum appends; a smaller strength is discarded. -/
def specRankStep {α : Type} (st : Nat × List α) (c : Nat × α) : Nat × List α :=
  if st.1 < c.1 then (c.1, [c.2])
  else if c.1 = st.1 then (st.1, st.2 ++ [c.2])
  else st

/-- Ranking law of the spec, folded over the matched candidates'
`(strength, candidate)` list in caller order. -/
def specRankingLaw {α : Type} (l : List (Nat × α)) : Nat × List α :=
  l.foldl specRankStep (0, [])

/-- Amended ranking step for subgraph mode: only a strictly greater
strength is recorded; an equal strength is discarded, not appended. -/
def strictRankStep {α : Type} (st : Nat × List α) (c : Nat × α) : Nat × List α :=
  if st.1 < c.1 then (c.1, [c.2]) else st

/-- Amended ranking law for subgraph mode. -/
def strictRankingLaw {α : Type} (l : List (Nat × α)) : Nat × List α :=
  l.foldl strictRankStep (0, [])

/-- Matched candidates of a subtree locator run: the selected fragments on
which the seeker succeeds, with their strengths, in caller order. -/
def treeMatched (find : Subtree → Option Mapping)
    (selected : List (String × Subtree)) : List (Nat × (Mapping × String)) :=
  selected.filterMap fun it =>
    (find it.2).map fun m => (it.2.nodes.length, (m, it.1))

/-- Matched candidates of a subgraph locator run: the patterns on which the
seeker returns a sequence of mappings, with their strengths, in caller
order. -/
def graphMatched (tg : MultiDiGraph) (pats : List (String × MultiDiGraph)) :
    List (Nat × (List Mapping × String)) :=
  pats.filterMap fun pp =>
    match find_isomorphic_subgraphs tg pp.2 with
    | .ok (some ms) => some (pp.2.nodes.length, (ms, pp.1))
    | _ => none

lemma selectRed2_error_of_none :
    ∀ ns : List (Nat × NodeAttrs), (∃ x ∈ ns, x.2.color = none) →
      selectRed2 ns = .error .colorKey := by
  intro ns h
  induction ns with
  | nil => simp at h
  | cons nv rest ih =>
    obtain ⟨x, hx, hc⟩ := h
    cases hxm : nv.2.color with
    | none => simp [selectRed2, hxm]
    | some c =>
      rcases List.mem_cons.mp hx with rfl | hx'
      · rw [hxm] at hc; cases hc
      · have hrec := ih ⟨x, hx', hc⟩
        simp [selectRed2, hxm, hrec]

/-- C10: when some node of the supplied pattern graph lacks the `color`
attribute, `find_isomorphic_subgraphs` raises the `color` `KeyError` while
building the `before` restriction, before any matching is attempted —
the result is this error, never `none` or a sequence of mappings. -/
theorem c10_missing_color_raises (tg pat : MultiDiGraph)
    (h : ∃ x ∈ pat.nodes, x.2.color = none) :
    find_isomorphic_subgraphs tg pat = .error .colorKey := by
  unfold find_isomorphic_subgraphs
  rw [selectRed2_error_of_none pat.nodes h]

/-- C10 witness: a concrete pattern whose single node has no `color`
attribute makes the call error out. -/
theorem c10_witness :
    (∃ x ∈ [((5 : Nat), (⟨some "add", some "a+b", none, none⟩ : NodeAttrs))],
        x.2.color = none)
    ∧ find_isomorphic_subgraphs
        ⟨[(1, ⟨some "add", some "a+b", none, none⟩)], []⟩
        ⟨[(5, ⟨some "add", some "a+b", none, none⟩)], []⟩ = .error .colorKey := by
  refine ⟨⟨_, List.mem_singleton.mpr rfl, rfl⟩, ?_⟩
  exact c10_missing_color_raises _ _ ⟨_, List.mem_singleton.mpr rfl, rfl⟩

lemma subgraph_fold_error_propagates (tg pat : MultiDiGraph) (path : String)
    (post : List (String × MultiDiGraph)) (e : LocError)
    (hfind : find_isomorphic_subgraphs tg pat = .error e) :
    ∀ (pre : List (String × MultiDiGraph)) (st : Nat × GraphDict),
      (∀ q ∈ pre, ∃ r, find_isomorphic_subgraphs tg q.2 = .ok r) →
      foldExcept (subgraphLocStep tg) st (pre ++ (path, pat) :: post) = .error e := by
  intro pre
  induction pre with
  | nil =>
    intro st _
    simp [foldExcept, subgraphLocStep, hfind]
  | cons q pre' ih =>
    intro st h
    obtain ⟨r, hr⟩ := h q (List.mem_cons_self q pre')
    have hstep : ∃ st', subgraphLocStep tg st q = .ok st' := by
      cases r with
      | none => exact ⟨st, by simp [subgraphLocStep, hr]⟩
      | some ms =>
        by_cases hlt : st.1 < q.2.nodes.length
        · exact ⟨(q.2.nodes.length, setdefaultAppend st.2 q.2.nodes.length (ms, q.1)),
            by simp [subgraphLocStep, hr, hlt]⟩
        · exact ⟨st, by simp [subgraphLocStep, hr, hlt]⟩
    obtain ⟨st', hst'⟩ := hstep
    have : foldExcept (subgraphLocStep tg) st'
        (pre' ++ (path, pat) :: post) = .error e :=
      ih st' (fun q' hq' => h q' (List.mem_cons_of_mem _ hq'))
    simp [foldExcept, hst', this]

/-- C4: invoking the node-compatibility predicate on two variable-category
nodes when the pattern node carries no suffix hint yields the distinct
`missingHintKey` error rather than `false`; and any error raised by the
seeker inside the subgraph locator loop propagates out of
`locate_pattern_by_subgraph_from_source`, aborting the whole locate
operation (the remaining candidates after the failing one are never
consulted, whatever they are). -/
theorem c4_missing_hint_aborts_locate :
    (∀ (t p : NodeAttrs) (tl tol pl pol : String),
        t.label = some tl → t.original_label = some tol →
        p.label = some pl → p.original_label = some pol →
        strStartsWith pl "var" = true → strStartsWith tl "var" = true →
        p.longest_common_var_name_suffix = none →
        are_nodes_equal t p = .error .missingHintKey)
    ∧ (∀ (tg pat : MultiDiGraph) (path : String)
        (pre post : List (String × MultiDiGraph)) (e : LocError),
        find_isomorphic_subgraphs tg pat = .error e →
        (∀ q ∈ pre, ∃ r, find_isomorphic_subgraphs tg q.2 = .ok r) →
        locate_pattern_by_subgraph_from_source (pre ++ (path, pat) :: post) tg
          = .error e) := by
  constructor
  · intro t p tl tol pl pol h1 h2 h3 h4 h5 h6 h7
    unfold are_nodes_equal
    rw [h1, h2, h3, h4]
    simp [h5, h6, h7]
  · intro tg pat path pre post e hfind hpre
    unfold locate_pattern_by_subgraph_from_source
    rw [subgraph_fold_error_propagates tg pat path post e hfind pre (0, []) hpre]

/-- C4 witness: a concrete variable pattern node without a suffix hint
makes the predicate error, and a single-candidate locate run aborts with
that error. -/
theorem c4_witness :
    are_nodes_equal ⟨some "var2", some "yx", none, none⟩
        ⟨some "var1", some "x", some "red2", none⟩ = .error .missingHintKey
    ∧ locate_pattern_by_subgraph_from_source
        [("p", ⟨[(50, ⟨some "var1", some "x", some "red2", none⟩)], []⟩)]
        ⟨[(1, ⟨some "var2", some "yx", none, none⟩)], []⟩
        = .error .missingHintKey := by
  constructor
  · exact c4_missing_hint_aborts_locate.1 _ _ "var2" "yx" "var1" "x"
      rfl rfl rfl rfl rfl rfl rfl
  · exact c4_missing_hint_aborts_locate.2
      ⟨[(1, ⟨some "var2", some "yx", none, none⟩)], []⟩
      ⟨[(50, ⟨some "var1", some "x", some "red2", none⟩)], []⟩
      "p" [] [] .missingHintKey (by rfl) (fun q hq => absurd hq (List.not_mem_nil q))

lemma find_ok_shape (tg pat : MultiDiGraph) (ids : List Nat)
    (hsel : selectRed2 pat.nodes = .ok ids)
    (hs : hintSafe tg (inducedSubgraph pat ids) = true) :
    find_isomorphic_subgraphs tg pat =
      if (allMappings tg (inducedSubgraph pat ids)).isEmpty then .ok none
      else .ok (some (allMappings tg (inducedSubgraph pat ids))) := by
  unfold find_isomorphic_subgraphs
  rw [hsel]
  simp [hs]

/-- C6: the subgraph seeker's result is a function of the query graph
alone — the subgraph induced by the `red2` (`before`) node ids.  Two
patterns with the same `before` restriction are indistinguishable to
`find_isomorphic_subgraphs`, so `after`-tagged nodes and the edges
incident to them never constrain the match, while the full target graph
stays the search space. -/
theorem c6_only_before_constrains (tg pat1 pat2 : MultiDiGraph)
    (ids1 ids2 : List Nat)
    (h1 : selectRed2 pat1.nodes = .ok ids1)
    (h2 : selectRed2 pat2.nodes = .ok ids2)
    (h : inducedSubgraph pat1 ids1 = inducedSubgraph pat2 ids2) :
    find_isomorphic_subgraphs tg pat1 = find_isomorphic_subgraphs tg pat2 := by
  unfold find_isomorphic_subgraphs
  rw [h1, h2]
  dsimp only
  rw [h]

/-- C6 witness: dropping an `after`-coloured node and its incident edges
from a pattern leaves the seeker's answer unchanged. -/
theorem c6_witness :
    selectRed2 ([((100 : Nat), (⟨some "add", some "a+b", some "red2", none⟩ : NodeAttrs)),
        (101, ⟨some "sub", some "a-b", some "blue", none⟩)]) = .ok [100]
    ∧ find_isomorphic_subgraphs
        ⟨[(1, ⟨some "add", some "a+b", none, none⟩)], []⟩
        ⟨[(100, ⟨some "add", some "a+b", some "red2", none⟩),
          (101, ⟨some "sub", some "a-b", some "blue", none⟩)],
         [(100, 101, "dep"), (101, 100, "dep")]⟩
      = find_isomorphic_subgraphs
        ⟨[(1, ⟨some "add", some "a+b", none, none⟩)], []⟩
        ⟨[(100, ⟨some "add", some "a+b", some "red2", none⟩)], []⟩ := by
  refine ⟨rfl, ?_⟩
  exact c6_only_before_constrains _ _ _ [100] [100] rfl rfl rfl

/-- C7 counterexample: on a pattern with no occurrence in the target the
call returns the distinguished non-sequence value `None`, not an empty
sequence of mappings — refuting the claim that the result is always a
sequence of the same kind. -/
theorem c7_counterexample :
    find_isomorphic_subgraphs
        ⟨[(1, ⟨some "sub", some "a-b", none, none⟩)], []⟩
        ⟨[(100, ⟨some "add", some "a+b", some "red2", none⟩)], []⟩ = .ok none
    ∧ allMappings
        ⟨[(1, ⟨some "sub", some "a-b", none, none⟩)], []⟩
        (inducedSubgraph
          ⟨[(100, ⟨some "add", some "a+b", some "red2", none⟩)], []⟩ [100]) = [] :=
  ⟨rfl, rfl⟩

/-- C7 (amended): when the `before` restriction succeeds and no
compatibility test can raise, the seeker returns `none` exactly when the
pattern has no occurrence, and returns the non-`none` sequence of all
mappings whenever at least one occurrence exists. -/
theorem c7_none_when_no_occurrence (tg pat : MultiDiGraph) (ids : List Nat)
    (hsel : selectRed2 pat.nodes = .ok ids)
    (hs : hintSafe tg (inducedSubgraph pat ids) = true) :
    (find_isomorphic_subgraphs tg pat = .ok none
      ↔ allMappings tg (inducedSubgraph pat ids) = [])
    ∧ (allMappings tg (inducedSubgraph pat ids) ≠ [] →
        find_isomorphic_subgraphs tg pat
          = .ok (some (allMappings tg (inducedSubgraph pat ids)))) := by
  have heq := find_ok_shape tg pat ids hsel hs
  rw [heq]
  by_cases he : (allMappings tg (inducedSubgraph pat ids)).isEmpty
  · have : allMappings tg (inducedSubgraph pat ids) = [] :=
      List.isEmpty_iff.mp he
    simp [he, this]
  · have : allMappings tg (inducedSubgraph pat ids) ≠ [] := by
      intro hc
      exact he (by simp [hc])
    simp [he, this]

/-- C7 witness: a concrete no-occurrence run satisfies the amended
characterization. -/
theorem c7_witness :
    find_isomorphic_subgraphs
        ⟨[(1, ⟨some "sub", some "a-b", none, none⟩)], []⟩
        ⟨[(101, ⟨some "add", some "a+b", some "red2", none⟩)], []⟩ = .ok none := by
  exact (c7_none_when_no_occurrence
    ⟨[(1, ⟨some "sub", some "a-b", none, none⟩)], []⟩
    ⟨[(101, ⟨some "add", some "a+b", some "red2", none⟩)], []⟩
    [101] rfl rfl).1.mpr rfl

lemma find_some_ne_nil (tg pat : MultiDiGraph) (ms : List Mapping)
    (h : find_isomorphic_subgraphs tg pat = .ok (some ms)) : ms ≠ [] := by
  unfold find_isomorphic_subgraphs at h
  cases hsel : selectRed2 pat.nodes with
  | error e => rw [hsel] at h; simp at h
  | ok ids =>
    rw [hsel] at h
    dsimp only at h
    by_cases hs : hintSafe tg (inducedSubgraph pat ids) = true
    · rw [if_pos hs] at h
      by_cases he : (allMappings tg (inducedSubgraph pat ids)).isEmpty
      · rw [if_pos he] at h; simp at h
      · rw [if_neg he] at h
        have : allMappings tg (inducedSubgraph pat ids) = ms := by
          injection h with h'; injection h'
        subst this
        exact fun hc => he (by simp [hc])
    · rw [if_neg hs] at h; simp at h

lemma setdefaultAppend_preserves {β : Type} (P : β → Prop) :
    ∀ (d : List (Nat × List β)) (k : Nat) (v : β),
      (∀ kl ∈ d, ∀ x ∈ kl.2, P x) → P v →
      ∀ kl ∈ setdefaultAppend d k v, ∀ x ∈ kl.2, P x := by
  intro d
  induction d with
  | nil =>
    intro k v _ hv kl hkl x hx
    simp [setdefaultAppend] at hkl
    subst hkl
    simp at hx
    subst hx
    exact hv
  | cons kl0 rest ih =>
    intro k v hd hv kl hkl x hx
    by_cases hk : kl0.1 == k
    · simp [setdefaultAppend, hk] at hkl
      rcases hkl with hkl | hkl
      · subst hkl
        simp at hx
        rcases hx with hx | hx
        · exact hd kl0 (List.mem_cons_self _ _) x hx
        · subst hx; exact hv
      · exact hd kl (List.mem_cons_of_mem _ hkl) x hx
    · simp [setdefaultAppend, hk] at hkl
      rcases hkl with hkl | hkl
      · subst hkl; exact hd kl (List.mem_cons_self _ _) x hx
      · exact ih k v (fun kl' hkl' => hd kl' (List.mem_cons_of_mem _ hkl')) hv kl hkl x hx

lemma subgraph_fold_nonempty (tg : MultiDiGraph) :
    ∀ (pats : List (String × MultiDiGraph)) (st st' : Nat × GraphDict),
      (∀ kl ∈ st.2, ∀ x ∈ kl.2, x.1 ≠ []) →
      foldExcept (subgraphLocStep tg) st pats = .ok st' →
      ∀ kl ∈ st'.2, ∀ x ∈ kl.2, x.1 ≠ [] := by
  intro pats
  induction pats with
  | nil =>
    intro st st' hst h
    simp [foldExcept] at h
    subst h
    exact hst
  | cons pp rest ih =>
    intro st st' hst h
    unfold foldExcept at h
    cases hstep : subgraphLocStep tg st pp with
    | error e => rw [hstep] at h; simp at h
    | ok st1 =>
      rw [hstep] at h
      refine ih st1 st' ?_ h
      unfold subgraphLocStep at hstep
      cases hfind : find_isomorphic_subgraphs tg pp.2 with
      | error e => rw [hfind] at hstep; simp at hstep
      | ok found =>
        rw [hfind] at hstep
        cases found with
        | none =>
          simp at hstep
          subst hstep
          exact hst
        | some ms =>
          dsimp only at hstep
          by_cases hlt : st.1 < pp.2.nodes.length
          · rw [if_pos hlt] at hstep
            injection hstep with hstep
            subst hstep
            exact setdefaultAppend_preserves _ _ _ _ hst
              (find_some_ne_nil tg pp.2 ms hfind)
          · rw [if_neg hlt] at hstep
            injection hstep with hstep
            subst hstep
            exact hst

lemma lookupDict_mem {β : Type} :
    ∀ (d : List (Nat × List β)) (k : Nat) (l : List β),
      lookupDict d k = some l → ∃ k', (k', l) ∈ d := by
  intro d
  induction d with
  | nil => intro k l h; simp [lookupDict] at h
  | cons kl rest ih =>
    intro k l h
    by_cases hk : kl.1 == k
    · simp [lookupDict, hk] at h
      exact ⟨kl.1, by rw [← h]; exact List.mem_cons_self _ _⟩
    · simp [lookupDict, hk] at h
      obtain ⟨k', hk'⟩ := ih k l h
      exact ⟨k', List.mem_cons_of_mem _ hk'⟩

/-- C9: whenever `find_isomorphic_subgraphs` returns a non-`None` value,
that value is a non-empty sequence of mappings (the code only forgoes
`None` after `subgraph_is_isomorphic()` has found a first witness);
consequently every winning entry reported by
`locate_pattern_by_subgraph_from_source` holds a non-empty sequence, so
the single `next()` pulled from it never raises `StopIteration`. -/
theorem c9_reported_generators_nonempty :
    (∀ (tg pat : MultiDiGraph) (ms : List Mapping),
        find_isomorphic_subgraphs tg pat = .ok (some ms) → ms ≠ [])
    ∧ (∀ (pats : List (String × MultiDiGraph)) (tg : MultiDiGraph)
        (M : Nat) (ws : List (List Mapping × String)),
        locate_pattern_by_subgraph_from_source pats tg = .ok (M, some ws) →
        ∀ w ∈ ws, w.1 ≠ []) := by
  constructor
  · exact find_some_ne_nil
  · intro pats tg M ws h w hw
    unfold locate_pattern_by_subgraph_from_source at h
    cases hf : foldExcept (subgraphLocStep tg) (0, []) pats with
    | error e => rw [hf] at h; simp at h
    | ok st =>
      rw [hf] at h
      injection h with h
      have hws : lookupDict st.2 st.1 = some ws := by
        have := congrArg Prod.snd h
        simpa using this
      obtain ⟨k', hk'⟩ := lookupDict_mem st.2 st.1 ws hws
      exact subgraph_fold_nonempty tg pats (0, []) st
        (by intro kl hkl; simp at hkl) hf (k', ws) hk' w hw

/-- C9 witness: a concrete matching run in which the seeker's sequence and
the reported winning entry are non-empty. -/
theorem c9_witness :
    (([[((1 : Nat), (100 : Nat))]] : List Mapping) ≠ [])
    ∧ (∀ w ∈ ([(([[((1 : Nat), (100 : Nat))]] : List Mapping), "p")]
        : List (List Mapping × String)), w.1 ≠ []) := by
  constructor
  · exact c9_reported_generators_nonempty.1
      ⟨[(1, ⟨some "add", some "a+b", none, none⟩)], []⟩
      ⟨[(100, ⟨some "add", some "a+b", some "red2", none⟩)], []⟩
      [[(1, 100)]] rfl
  · exact c9_reported_generators_nonempty.2
      [("p", ⟨[(100, ⟨some "add", some "a+b", some "red2", none⟩)], []⟩)]
      ⟨[(1, ⟨some "add", some "a+b", none, none⟩)], []⟩
      1 [([[(1, 100)]], "p")] rfl

lemma mem_injAssignments (ts : List Nat) :
    ∀ (ps : List Nat) (m : List (Nat × Nat)), m ∈ injAssignments ts ps →
      m.map Prod.snd = ps ∧ (m.map Prod.fst).Nodup ∧ ∀ x ∈ m, x.1 ∈ ts := by
  intro ps
  induction ps with
  | nil =>
    intro m hm
    simp [injAssignments] at hm
    subst hm
    simp
  | cons p ps ih =>
    intro m hm
    unfold injAssignments at hm
    rw [List.mem_flatMap] at hm
    obtain ⟨m', hm', hmem⟩ := hm
    rw [List.mem_map] at hmem
    obtain ⟨t, ht, rfl⟩ := hmem
    rw [List.mem_filter] at ht
    obtain ⟨hts, hfree⟩ := ht
    obtain ⟨hsnd, hnd, hin⟩ := ih m' hm'
    refine ⟨by simp [hsnd], ?_, ?_⟩
    · rw [List.map_cons, List.nodup_cons]
      refine ⟨?_, hnd⟩
      intro hc
      rw [List.mem_map] at hc
      obtain ⟨x, hx, hx1⟩ := hc
      have := List.all_eq_true.mp hfree x hx
      exact bne_iff_ne.mp this hx1
    · intro x hx
      rcases List.mem_cons.mp hx with rfl | hx'
      · exact hts
      · exact hin x hx'

lemma find_some_eq (tg pat : MultiDiGraph) (ids : List Nat) (ms : List Mapping)
    (hsel : selectRed2 pat.nodes = .ok ids)
    (h : find_isomorphic_subgraphs tg pat = .ok (some ms)) :
    hintSafe tg (inducedSubgraph pat ids) = true
    ∧ ms = allMappings tg (inducedSubgraph pat ids) := by
  unfold find_isomorphic_subgraphs at h
  rw [hsel] at h
  dsimp only at h
  by_cases hs : hintSafe tg (inducedSubgraph pat ids) = true
  · rw [if_pos hs] at h
    refine ⟨hs, ?_⟩
    by_cases he : (allMappings tg (inducedSubgraph pat ids)).isEmpty
    · rw [if_pos he] at h; simp at h
    · rw [if_neg he] at h
      injection h with h'
      injection h' with h''
      exact h''.symm
  · rw [if_neg hs] at h; simp at h

/-- C1 counterexample: the emitted dict is keyed by target node ids with
pattern node ids as values, not the other way round — here the single
emitted mapping is `{1: 100}` although `1` is a target node id (not a
query-pattern node id) and `100` is a pattern node id (not a target node
id), refuting the claimed key/value roles. -/
theorem c1_counterexample :
    find_isomorphic_subgraphs
        ⟨[(1, ⟨some "add", some "a+b", none, none⟩)], []⟩
        ⟨[(100, ⟨some "add", some "a+b", some "red2", none⟩)], []⟩
      = .ok (some [[(1, 100)]])
    ∧ (100 : Nat) ∈
        (⟨[(100, ⟨some "add", some "a+b", some "red2", none⟩)], []⟩
          : MultiDiGraph).nodes.map Prod.fst
    ∧ (1 : Nat) ∉
        (⟨[(100, ⟨some "add", some "a+b", some "red2", none⟩)], []⟩
          : MultiDiGraph).nodes.map Prod.fst
    ∧ (100 : Nat) ∉
        (⟨[(1, ⟨some "add", some "a+b", none, none⟩)], []⟩
          : MultiDiGraph).nodes.map Prod.fst := by
  refine ⟨rfl, ?_, ?_, ?_⟩ <;> decide

/-- C1 (amended): every emitted mapping is an injective dict from target
node ids to query node ids — its keys are distinct target node ids, its
values enumerate exactly the `before`-restricted query node ids (so every
query node has a preimage, and, when the pattern's node ids are distinct,
the values are distinct too, making the inverse an injective total
function from query nodes into the target). -/
theorem c1_mapping_injective_onto_query (tg pat : MultiDiGraph)
    (ids : List Nat) (ms : List Mapping) (m : Mapping)
    (hsel : selectRed2 pat.nodes = .ok ids)
    (hfind : find_isomorphic_subgraphs tg pat = .ok (some ms))
    (hm : m ∈ ms) :
    m.map Prod.snd = (inducedSubgraph pat ids).nodes.map Prod.fst
    ∧ (m.map Prod.fst).Nodup
    ∧ (∀ x ∈ m, x.1 ∈ tg.nodes.map Prod.fst)
    ∧ ((pat.nodes.map Prod.fst).Nodup → (m.map Prod.snd).Nodup) := by
  obtain ⟨hs, hms⟩ := find_some_eq tg pat ids ms hsel hfind
  subst hms
  rw [allMappings, List.mem_filter] at hm
  obtain ⟨hinj, _⟩ := hm
  obtain ⟨hsnd, hnd, hin⟩ := mem_injAssignments _ _ _ hinj
  refine ⟨hsnd, hnd, hin, ?_⟩
  intro hpat
  rw [hsnd]
  refine hpat.sublist ?_
  exact (List.filter_sublist pat.nodes).map Prod.fst

/-- C1 witness: a concrete run instantiating the amended mapping shape. -/
theorem c1_witness :
    ([((1 : Nat), (100 : Nat))].map Prod.snd
        = (inducedSubgraph
            ⟨[(100, ⟨some "add", some "a+b", some "red2", none⟩)], []⟩
            [100]).nodes.map Prod.fst)
    ∧ ([((1 : Nat), (100 : Nat))].map Prod.fst).Nodup := by
  have h := c1_mapping_injective_onto_query
    ⟨[(1, ⟨some "add", some "a+b", none, none⟩)], []⟩
    ⟨[(100, ⟨some "add", some "a+b", some "red2", none⟩)], []⟩
    [100] [[(1, 100)]] [(1, 100)] rfl rfl (List.mem_singleton.mpr rfl)
  exact ⟨h.1, h.2.1⟩

/-- C2 counterexample: satisfied per-kind query multiplicities do not
suffice.  The query has exactly one `(10, 11, "operand")` edge; the target
carries two parallel `(1, 2, "operand")` edges between the compatible
images, so every query-edge multiplicity is (strictly) covered, yet the
matcher — which demands exact equality of parallel-edge counts on the
matched subset (induced subgraph isomorphism, not monomorphism) — emits no
mapping at all: the extra target edge between matched nodes prevents the
match. -/
theorem c2_counterexample :
    nodeCompatAll
        ⟨[(1, ⟨some "name", some "x", none, none⟩),
          (2, ⟨some "op", some "+", none, none⟩)],
         [(1, 2, "operand"), (1, 2, "operand")]⟩
        (inducedSubgraph
          ⟨[(10, ⟨some "name", some "x", some "red2", none⟩),
            (11, ⟨some "op", some "+", some "red2", none⟩)],
           [(10, 11, "operand")]⟩ [10, 11])
        [(1, 10), (2, 11)] = true
    ∧ (inducedSubgraph
        ⟨[(10, ⟨some "name", some "x", some "red2", none⟩),
          (11, ⟨some "op", some "+", some "red2", none⟩)],
         [(10, 11, "operand")]⟩ [10, 11]).edges = [(10, 11, "operand")]
    ∧ numberOfEdgesOfKind
        (inducedSubgraph
          ⟨[(10, ⟨some "name", some "x", some "red2", none⟩),
            (11, ⟨some "op", some "+", some "red2", none⟩)],
           [(10, 11, "operand")]⟩ [10, 11]) 10 11 "operand" = 1
    ∧ numberOfEdgesOfKind
        ⟨[(1, ⟨some "name", some "x", none, none⟩),
          (2, ⟨some "op", some "+", none, none⟩)],
         [(1, 2, "operand"), (1, 2, "operand")]⟩ 1 2 "operand" = 2
    ∧ find_isomorphic_subgraphs
        ⟨[(1, ⟨some "name", some "x", none, none⟩),
          (2, ⟨some "op", some "+", none, none⟩)],
         [(1, 2, "operand"), (1, 2, "operand")]⟩
        ⟨[(10, ⟨some "name", some "x", some "red2", none⟩),
          (11, ⟨some "op", some "+", some "red2", none⟩)],
         [(10, 11, "operand")]⟩ = .ok none :=
  ⟨rfl, rfl, rfl, rfl, rfl⟩

/-- C2 (amended): a mapping is emitted iff it is a complete injective
assignment of the query nodes to target nodes in which every mapped pair
passes the node-match callback and, for every ordered pair of mapped
nodes, the number of parallel target edges EQUALS the number of parallel
query edges, edge kinds never being compared — exact induced multiplicity
equality on the matched subset, not a one-sided monomorphism bound. -/
theorem c2_emitted_iff_exact_counts (tg pat : MultiDiGraph) (ids : List Nat)
    (m : Mapping)
    (hsel : selectRed2 pat.nodes = .ok ids)
    (hs : hintSafe tg (inducedSubgraph pat ids) = true) :
    (∃ ms, find_isomorphic_subgraphs tg pat = .ok (some ms) ∧ m ∈ ms)
    ↔ (m ∈ injAssignments (tg.nodes.map Prod.fst)
          ((inducedSubgraph pat ids).nodes.map Prod.fst)
        ∧ nodeCompatAll tg (inducedSubgraph pat ids) m = true
        ∧ edgeCountsExact tg (inducedSubgraph pat ids) m = true) := by
  constructor
  · rintro ⟨ms, hfind, hm⟩
    obtain ⟨_, hms⟩ := find_some_eq tg pat ids ms hsel hfind
    subst hms
    rw [allMappings, List.mem_filter] at hm
    obtain ⟨hinj, hvalid⟩ := hm
    rw [isValidMapping, Bool.and_eq_true] at hvalid
    exact ⟨hinj, hvalid.1, hvalid.2⟩
  · rintro ⟨hinj, hc, he⟩
    have hmem : m ∈ allMappings tg (inducedSubgraph pat ids) := by
      rw [allMappings, List.mem_filter]
      exact ⟨hinj, by rw [isValidMapping, Bool.and_eq_true]; exact ⟨hc, he⟩⟩
    have hne : ¬ (allMappings tg (inducedSubgraph pat ids)).isEmpty := by
      intro hc'
      rw [List.isEmpty_iff] at hc'
      rw [hc'] at hmem
      exact List.not_mem_nil m hmem
    refine ⟨allMappings tg (inducedSubgraph pat ids), ?_, hmem⟩
    rw [find_ok_shape tg pat ids hsel hs, if_neg hne]

/-- C2 witness: a concrete emitted mapping instantiating the exact-count
characterization. -/
theorem c2_witness :
    ∃ ms, find_isomorphic_subgraphs
        ⟨[(1, ⟨some "name", some "x", none, none⟩),
          (2, ⟨some "op", some "+", none, none⟩)],
         [(1, 2, "operand")]⟩
        ⟨[(10, ⟨some "name", some "x", some "red2", none⟩),
          (11, ⟨some "op", some "+", some "red2", none⟩)],
         [(10, 11, "operand")]⟩ = .ok (some ms)
      ∧ [((1 : Nat), (10 : Nat)), (2, 11)] ∈ ms := by
  exact (c2_emitted_iff_exact_counts
    ⟨[(1, ⟨some "name", some "x", none, none⟩),
      (2, ⟨some "op", some "+", none, none⟩)],
     [(1, 2, "operand")]⟩
    ⟨[(10, ⟨some "name", some "x", some "red2", none⟩),
      (11, ⟨some "op", some "+", some "red2", none⟩)],
     [(10, 11, "operand")]⟩
    [10, 11] [(1, 10), (2, 11)] rfl rfl).mpr ⟨by decide, rfl, rfl⟩

lemma lookupDict_eq_none_of_absent {β : Type} :
    ∀ (d : List (Nat × List β)) (k : Nat), (∀ kl ∈ d, kl.1 ≠ k) →
      lookupDict d k = none := by
  intro d
  induction d with
  | nil => intro k _; rfl
  | cons kl rest ih =>
    intro k h
    have hne : kl.1 ≠ k := h kl (List.mem_cons_self _ _)
    simp [lookupDict, hne]
    exact ih k (fun kl' hkl' => h kl' (List.mem_cons_of_mem _ hkl'))

lemma setdefaultAppend_of_absent {β : Type} :
    ∀ (d : List (Nat × List β)) (k : Nat) (v : β), (∀ kl ∈ d, kl.1 ≠ k) →
      setdefaultAppend d k v = d ++ [(k, [v])] := by
  intro d
  induction d with
  | nil => intro k v _; rfl
  | cons kl rest ih =>
    intro k v h
    have hne : kl.1 ≠ k := h kl (List.mem_cons_self _ _)
    simp [setdefaultAppend, hne]
    exact ih k v (fun kl' hkl' => h kl' (List.mem_cons_of_mem _ hkl'))

lemma lookupDict_append_fresh {β : Type} :
    ∀ (d : List (Nat × List β)) (k : Nat) (v : β), (∀ kl ∈ d, kl.1 ≠ k) →
      lookupDict (d ++ [(k, [v])]) k = some [v] := by
  intro d
  induction d with
  | nil => intro k v _; simp [lookupDict]
  | cons kl rest ih =>
    intro k v h
    have hne : kl.1 ≠ k := h kl (List.mem_cons_self _ _)
    simp [lookupDict, hne]
    exact ih k v (fun kl' hkl' => h kl' (List.mem_cons_of_mem _ hkl'))

lemma lookupDict_setdefaultAppend_found {β : Type} :
    ∀ (d : List (Nat × List β)) (k : Nat) (v : β) (l : List β),
      lookupDict d k = some l →
      lookupDict (setdefaultAppend d k v) k = some (l ++ [v]) := by
  intro d
  induction d with
  | nil => intro k v l h; simp [lookupDict] at h
  | cons kl rest ih =>
    intro k v l h
    by_cases hk : kl.1 == k
    · simp [lookupDict, hk] at h
      simp [setdefaultAppend, hk, lookupDict, h]
    · simp [lookupDict, hk] at h
      simp [setdefaultAppend, hk, lookupDict]
      exact ih k v l h

lemma setdefaultAppend_keys {β : Type} :
    ∀ (d : List (Nat × List β)) (k : Nat) (v : β) (kl : Nat × List β),
      kl ∈ setdefaultAppend d k v → kl.1 = k ∨ ∃ kl' ∈ d, kl.1 = kl'.1 := by
  intro d
  induction d with
  | nil =>
    intro k v kl hkl
    simp [setdefaultAppend] at hkl
    subst hkl
    exact Or.inl rfl
  | cons kl0 rest ih =>
    intro k v kl hkl
    by_cases hk : kl0.1 == k
    · simp [setdefaultAppend, hk] at hkl
      rcases hkl with hkl | hkl
      · exact Or.inr ⟨kl0, List.mem_cons_self _ _, by rw [hkl]⟩
      · exact Or.inr ⟨kl, List.mem_cons_of_mem _ hkl, rfl⟩
    · simp [setdefaultAppend, hk] at hkl
      rcases hkl with hkl | hkl
      · exact Or.inr ⟨kl0, List.mem_cons_self _ _, by rw [hkl]⟩
      · rcases ih k v kl hkl with h | ⟨kl', hkl', heq⟩
        · exact Or.inl h
        · exact Or.inr ⟨kl', List.mem_cons_of_mem _ hkl', heq⟩

/-- Abstraction relation between a locator loop state (running maximum and
size-keyed dictionary) and a ranking-law state (running maximum and the
result set of the candidates at that maximum). -/
def RankInv {β : Type} (acc : Nat × List (Nat × List β)) (spec : Nat × List β) : Prop :=
  acc.1 = spec.1
  ∧ (∀ kl ∈ acc.2, kl.1 ≤ acc.1)
  ∧ ((spec.2 = [] ∧ acc.2 = []) ∨ (spec.2 ≠ [] ∧ lookupDict acc.2 acc.1 = some spec.2))

lemma rankInv_append {β : Type} (acc : Nat × List (Nat × List β))
    (spec : Nat × List β) (s : Nat) (v : β) (hInv : RankInv acc spec) :
    RankInv (if acc.1 ≤ s then (s, setdefaultAppend acc.2 s v) else acc)
      (specRankStep spec (s, v)) := by
  obtain ⟨h1, h2, h3⟩ := hInv
  rcases Nat.lt_trichotomy acc.1 s with hlt | heq | hgt
  · rw [if_pos (Nat.le_of_lt hlt)]
    have hspec : specRankStep spec (s, v) = (s, [v]) := by
      rw [specRankStep, if_pos (by dsimp only; omega)]
    rw [hspec]
    have habsent : ∀ kl ∈ acc.2, kl.1 ≠ s :=
      fun kl hkl => Nat.ne_of_lt (Nat.lt_of_le_of_lt (h2 kl hkl) hlt)
    rw [setdefaultAppend_of_absent acc.2 s v habsent]
    refine ⟨rfl, ?_, Or.inr ⟨List.cons_ne_nil v [], ?_⟩⟩
    · intro kl hkl
      rcases List.mem_append.mp hkl with hkl | hkl
      · exact Nat.le_of_lt (Nat.lt_of_le_of_lt (h2 kl hkl) hlt)
      · simp at hkl; rw [hkl]
    · exact lookupDict_append_fresh acc.2 s v habsent
  · rw [if_pos (Nat.le_of_eq heq)]
    have hspec : specRankStep spec (s, v) = (spec.1, spec.2 ++ [v]) := by
      rw [specRankStep, if_neg (by dsimp only; omega), if_pos (by dsimp only; omega)]
    rw [hspec]
    rcases h3 with ⟨hsp, hacc⟩ | ⟨hsp, hacc⟩
    · subst heq
      rw [hacc, hsp]
      exact ⟨h1, by intro kl hkl; simp [setdefaultAppend] at hkl; rw [hkl],
        Or.inr ⟨List.cons_ne_nil v [], by simp [setdefaultAppend, lookupDict]⟩⟩
    · subst heq
      refine ⟨h1, ?_, Or.inr ⟨by simp [hsp], ?_⟩⟩
      · intro kl hkl
        rcases setdefaultAppend_keys acc.2 acc.1 v kl hkl with h | ⟨kl', hkl', hk⟩
        · exact Nat.le_of_eq h
        · rw [hk]; exact h2 kl' hkl'
      · exact lookupDict_setdefaultAppend_found acc.2 acc.1 v spec.2 hacc
  · rw [if_neg (Nat.not_le_of_lt hgt)]
    have hspec : specRankStep spec (s, v) = spec := by
      rw [specRankStep, if_neg (by dsimp only; omega), if_neg (by dsimp only; omega)]
    rw [hspec]
    exact ⟨h1, h2, h3⟩

lemma rankInv_strict {β : Type} (acc : Nat × List (Nat × List β))
    (spec : Nat × List β) (s : Nat) (v : β) (hInv : RankInv acc spec) :
    RankInv (if acc.1 < s then (s, setdefaultAppend acc.2 s v) else acc)
      (strictRankStep spec (s, v)) := by
  obtain ⟨h1, h2, h3⟩ := hInv
  by_cases hlt : acc.1 < s
  · rw [if_pos hlt]
    have hspec : strictRankStep spec (s, v) = (s, [v]) := by
      rw [strictRankStep, if_pos (by dsimp only; omega)]
    rw [hspec]
    have habsent : ∀ kl ∈ acc.2, kl.1 ≠ s :=
      fun kl hkl => Nat.ne_of_lt (Nat.lt_of_le_of_lt (h2 kl hkl) hlt)
    rw [setdefaultAppend_of_absent acc.2 s v habsent]
    refine ⟨rfl, ?_, Or.inr ⟨List.cons_ne_nil v [], ?_⟩⟩
    · intro kl hkl
      rcases List.mem_append.mp hkl with hkl | hkl
      · exact Nat.le_of_lt (Nat.lt_of_le_of_lt (h2 kl hkl) hlt)
      · simp at hkl; rw [hkl]
    · exact lookupDict_append_fresh acc.2 s v habsent
  · rw [if_neg hlt]
    have hspec : strictRankStep spec (s, v) = spec := by
      rw [strictRankStep, if_neg (by dsimp only; omega)]
    rw [hspec]
    exact ⟨h1, h2, h3⟩

lemma tree_fold_rankInv (find : Subtree → Option Mapping) :
    ∀ (selected : List (String × Subtree)) (acc : Nat × TreeDict)
      (spec : Nat × List (Mapping × String)), RankInv acc spec →
      RankInv (selected.foldl (subtreeLocStep find) acc)
        ((treeMatched find selected).foldl specRankStep spec) := by
  intro selected
  induction selected with
  | nil => intro acc spec h; exact h
  | cons it rest ih =>
    intro acc spec h
    cases hf : find it.2 with
    | none =>
      have hstep : subtreeLocStep find acc it = acc := by
        simp [subtreeLocStep, hf]
      have hmatched : treeMatched find (it :: rest) = treeMatched find rest := by
        simp [treeMatched, List.filterMap_cons, hf]
      rw [List.foldl_cons, hstep, hmatched]
      exact ih acc spec h
    | some m =>
      have hstep : subtreeLocStep find acc it
          = if acc.1 ≤ it.2.nodes.length
            then (it.2.nodes.length, setdefaultAppend acc.2 it.2.nodes.length (m, it.1))
            else acc := by
        simp [subtreeLocStep, hf]
      have hmatched : treeMatched find (it :: rest)
          = (it.2.nodes.length, (m, it.1)) :: treeMatched find rest := by
        simp [treeMatched, List.filterMap_cons, hf]
      rw [List.foldl_cons, hstep, hmatched, List.foldl_cons]
      exact ih _ _ (rankInv_append acc spec it.2.nodes.length (m, it.1) h)

lemma graph_fold_rankInv (tg : MultiDiGraph) :
    ∀ (pats : List (String × MultiDiGraph)) (acc : Nat × GraphDict)
      (spec : Nat × List (List Mapping × String)) (acc' : Nat × GraphDict),
      RankInv acc spec →
      foldExcept (subgraphLocStep tg) acc pats = .ok acc' →
      RankInv acc' ((graphMatched tg pats).foldl strictRankStep spec) := by
  intro pats
  induction pats with
  | nil =>
    intro acc spec acc' h hfold
    simp [foldExcept] at hfold
    subst hfold
    exact h
  | cons pp rest ih =>
    intro acc spec acc' h hfold
    unfold foldExcept at hfold
    cases hstep : subgraphLocStep tg acc pp with
    | error e => rw [hstep] at hfold; simp at hfold
    | ok acc1 =>
      rw [hstep] at hfold
      unfold subgraphLocStep at hstep
      cases hfind : find_isomorphic_subgraphs tg pp.2 with
      | error e => rw [hfind] at hstep; simp at hstep
      | ok found =>
        rw [hfind] at hstep
        cases found with
        | none =>
          simp at hstep
          subst hstep
          have hmatched : graphMatched tg (pp :: rest) = graphMatched tg rest := by
            simp [graphMatched, List.filterMap_cons, hfind]
          rw [hmatched]
          exact ih acc spec acc' h hfold
        | some ms =>
          have hmatched : graphMatched tg (pp :: rest)
              = (pp.2.nodes.length, (ms, pp.1)) :: graphMatched tg rest := by
            simp [graphMatched, List.filterMap_cons, hfind]
          rw [hmatched, List.foldl_cons]
          dsimp only at hstep
          have hacc1 : acc1
              = if acc.1 < pp.2.nodes.length
                then (pp.2.nodes.length,
                      setdefaultAppend acc.2 pp.2.nodes.length (ms, pp.1))
                else acc := by
            by_cases hlt : acc.1 < pp.2.nodes.length
            · rw [if_pos hlt]
              rw [if_pos hlt] at hstep
              injection hstep with hstep
              exact hstep.symm
            · rw [if_neg hlt]
              rw [if_neg hlt] at hstep
              injection hstep with hstep
              exact hstep.symm
          subst hacc1
          exact ih _ _ acc'
            (rankInv_strict acc spec pp.2.nodes.length (ms, pp.1) h) hfold

/-- C3 (amended): the subtree locator follows the claimed ranking law —
strictly greater strength resets the reported set, equal strength appends
in encounter order, smaller is discarded — but the subgraph locator
follows the strict law in which a candidate whose strength merely EQUALS
the running maximum is discarded, not appended; so strengths `[3,5,5,2]`
yield both strength-5 candidates only in subtree mode, while subgraph mode
reports just the first. -/
theorem c3_tie_handling_differs_by_mode :
    (∀ (find : Subtree → Option Mapping) (items : List (String × List Subtree))
        (selected : List (String × Subtree)) (M : Nat)
        (w : Option (List (Mapping × String))),
        items.mapM (fun it => (get_maximal_subtree it.2).map (fun s => (it.1, s)))
          = some selected →
        locate_pattern_by_subtree find items = some (M, w) →
        M = (specRankingLaw (treeMatched find selected)).1
        ∧ w = (if (specRankingLaw (treeMatched find selected)).2 = [] then none
               else some (specRankingLaw (treeMatched find selected)).2))
    ∧ (∀ (tg : MultiDiGraph) (pats : List (String × MultiDiGraph)) (M : Nat)
        (w : Option (List (List Mapping × String))),
        locate_pattern_by_subgraph_from_source pats tg = .ok (M, w) →
        M = (strictRankingLaw (graphMatched tg pats)).1
        ∧ w = (if (strictRankingLaw (graphMatched tg pats)).2 = [] then none
               else some (strictRankingLaw (graphMatched tg pats)).2)) := by
  have hInit : ∀ (β : Type), RankInv ((0, []) : Nat × List (Nat × List β)) (0, []) :=
    fun β => ⟨rfl, by intro kl hkl; simp at hkl, Or.inl ⟨rfl, rfl⟩⟩
  constructor
  · intro find items selected M w hsel h
    unfold locate_pattern_by_subtree at h
    rw [hsel] at h
    dsimp only at h
    injection h with h
    have hInv := tree_fold_rankInv find selected (0, []) (0, [])
      (hInit (Mapping × String))
    obtain ⟨h1, _, h3⟩ := hInv
    have hM : M = (specRankingLaw (treeMatched find selected)).1 := by
      have := congrArg Prod.fst h
      dsimp at this
      rw [← this]
      exact h1
    refine ⟨hM, ?_⟩
    have hw : w = lookupDict (selected.foldl (subtreeLocStep find) (0, [])).2
        (selected.foldl (subtreeLocStep find) (0, [])).1 := by
      have := congrArg Prod.snd h
      dsimp at this
      rw [this]
    rcases h3 with ⟨hsp, hacc⟩ | ⟨hsp, hacc⟩
    · rw [hw, hacc]
      have : (specRankingLaw (treeMatched find selected)).2 = [] := hsp
      rw [if_pos this]
      rfl
    · rw [hw, hacc]
      have : (specRankingLaw (treeMatched find selected)).2 ≠ [] := hsp
      rw [if_neg this]
      rfl
  · intro tg pats M w h
    unfold locate_pattern_by_subgraph_from_source at h
    cases hfold : foldExcept (subgraphLocStep tg) (0, []) pats with
    | error e => rw [hfold] at h; simp at h
    | ok st =>
      rw [hfold] at h
      injection h with h
      have hInv := graph_fold_rankInv tg pats (0, []) (0, []) st
        (hInit (List Mapping × String)) hfold
      obtain ⟨h1, _, h3⟩ := hInv
      have hM : M = (strictRankingLaw (graphMatched tg pats)).1 := by
        have := congrArg Prod.fst h
        dsimp at this
        rw [← this]
        exact h1
      refine ⟨hM, ?_⟩
      have hw : w = lookupDict st.2 st.1 := by
        have := congrArg Prod.snd h
        dsimp at this
        rw [← this]
      rcases h3 with ⟨hsp, hacc⟩ | ⟨hsp, hacc⟩
      · rw [hw, hacc]
        have : (strictRankingLaw (graphMatched tg pats)).2 = [] := hsp
        rw [if_pos this]
        rfl
      · rw [hw, hacc]
        have : (strictRankingLaw (graphMatched tg pats)).2 ≠ [] := hsp
        rw [if_neg this]
        rfl

/-- Target with one statement node, used by the ranking scenarios. -/
def demoTarget : MultiDiGraph := ⟨[(0, ⟨some "stmt", some "s", none, none⟩)], []⟩

/-- A `before`-phase pattern node matching the demo target's node. -/
def beforeStmt : NodeAttrs := ⟨some "stmt", some "s", some "red2", none⟩

/-- An `after`-phase pattern node; it only pads the pattern's node count. -/
def afterBlue : NodeAttrs := ⟨some "x", some "x", some "blue", none⟩

/-- Candidate patterns with full node counts 3, 5, 5 and 2, each of whose
`before` half is the single matching statement node. -/
def demoPats : List (String × MultiDiGraph) :=
  [("a", ⟨[(100, beforeStmt), (101, afterBlue), (102, afterBlue)], []⟩),
   ("b", ⟨[(100, beforeStmt), (101, afterBlue), (102, afterBlue),
           (103, afterBlue), (104, afterBlue)], []⟩),
   ("c", ⟨[(100, beforeStmt), (101, afterBlue), (102, afterBlue),
           (103, afterBlue), (104, afterBlue)], []⟩),
   ("d", ⟨[(100, beforeStmt), (101, afterBlue)], []⟩)]

/-- C3 counterexample: in subgraph mode, candidate strengths 3, 5, 5, 2 in
caller order produce a reported set holding ONLY the first strength-5
candidate — the second, equal-strength candidate `"c"` was discarded, not
appended, refuting the claim that both modes append on equality. -/
theorem c3_counterexample :
    locate_pattern_by_subgraph_from_source demoPats demoTarget
      = .ok (5, some [([[(0, 100)]], "b")])
    ∧ ([([[((0 : Nat), (100 : Nat))]], "b")] : List (List Mapping × String)).length
        = 1 :=
  ⟨rfl, rfl⟩

/-- The subtree seeker outcome used by the ranking scenario: every
candidate fragment matches with a fixed mapping. -/
def demoFind : Subtree → Option Mapping := fun _ => some [(0, 0)]

/-- Subtree-mode candidates whose selected maximal fragments have node
counts 3, 5, 5 and 2 in caller order. -/
def demoItems : List (String × List Subtree) :=
  [("a", [⟨[1, 2, 3]⟩]),
   ("b", [⟨[1, 2]⟩, ⟨[1, 2, 3, 4, 5]⟩]),
   ("c", [⟨[6, 7, 8, 9, 10]⟩]),
   ("d", [⟨[1, 2]⟩])]

/-- The maximal fragments `locate_pattern_by_subtree` selects from
`demoItems`. -/
def demoSelected : List (String × Subtree) :=
  [("a", ⟨[1, 2, 3]⟩), ("b", ⟨[1, 2, 3, 4, 5]⟩),
   ("c", ⟨[6, 7, 8, 9, 10]⟩), ("d", ⟨[1, 2]⟩)]

/-- C3 witness: concrete runs of both locator modes on strengths
`[3,5,5,2]` instantiate the amended laws — subtree mode reports both
strength-5 candidates in encounter order, subgraph mode only the first. -/
theorem c3_witness :
    ((5 : Nat) = (specRankingLaw (treeMatched demoFind demoSelected)).1
      ∧ (some [([(0, 0)], "b"), ([(0, 0)], "c")] : Option (List (Mapping × String)))
          = (if (specRankingLaw (treeMatched demoFind demoSelected)).2 = [] then none
             else some (specRankingLaw (treeMatched demoFind demoSelected)).2))
    ∧ ((5 : Nat) = (strictRankingLaw (graphMatched demoTarget demoPats)).1
      ∧ (some [([[(0, 100)]], "b")] : Option (List (List Mapping × String)))
          = (if (strictRankingLaw (graphMatched demoTarget demoPats)).2 = [] then none
             else some (strictRankingLaw (graphMatched demoTarget demoPats)).2)) := by
  constructor
  · exact c3_tie_handling_differs_by_mode.1 demoFind demoItems demoSelected 5
      (some [([(0, 0)], "b"), ([(0, 0)], "c")]) rfl rfl
  · exact c3_tie_handling_differs_by_mode.2 demoTarget demoPats 5
      (some [([[(0, 100)]], "b")]) rfl

/-- C8: the strength a winning candidate is recorded with is, in subtree
mode, the node count of the fragment selected by `get_maximal_subtree`
for that pattern, and, in subgraph mode, the node count of the FULL
pattern graph — `after`-phase nodes included, not only the matched
`before` half. -/
theorem c8_strength_is_pattern_node_count :
    (∀ (find : Subtree → Option Mapping) (st : Nat × TreeDict) (path : String)
        (frags : List Subtree) (sel : Subtree) (m : Mapping),
        get_maximal_subtree frags = some sel → find sel = some m →
        st.1 ≤ sel.nodes.length →
        subtreeLocStep find st (path, sel)
          = (sel.nodes.length, setdefaultAppend st.2 sel.nodes.length (m, path)))
    ∧ (∀ (tg : MultiDiGraph) (st : Nat × GraphDict) (path : String)
        (pat : MultiDiGraph) (ms : List Mapping),
        find_isomorphic_subgraphs tg pat = .ok (some ms) →
        st.1 < pat.nodes.length →
        subgraphLocStep tg st (path, pat)
          = .ok (pat.nodes.length, setdefaultAppend st.2 pat.nodes.length (ms, path))) := by
  constructor
  · intro find st path frags sel m _ hf hle
    simp [subtreeLocStep, hf, hle]
  · intro tg st path pat ms hfind hlt
    simp [subgraphLocStep, hfind, hlt]

/-- C8 witness: a pattern with three nodes whose `before` half has a single
node is recorded with strength 3 (the full count), and a selected maximal
fragment with three nodes is recorded with strength 3. -/
theorem c8_witness :
    subtreeLocStep (fun _ => some [(9, 9)]) (0, []) ("t", ⟨[1, 2, 3]⟩)
      = (3, setdefaultAppend [] 3 ([(9, 9)], "t"))
    ∧ subgraphLocStep
        ⟨[(1, ⟨some "add", some "a+b", none, none⟩)], []⟩ (0, []) ("p",
          ⟨[(100, ⟨some "add", some "a+b", some "red2", none⟩),
            (101, ⟨some "x", some "x", some "blue", none⟩),
            (102, ⟨some "x", some "x", some "blue", none⟩)], []⟩)
      = .ok (3, setdefaultAppend [] 3 ([[(1, 100)]], "p"))
    ∧ (inducedSubgraph
        ⟨[(100, ⟨some "add", some "a+b", some "red2", none⟩),
          (101, ⟨some "x", some "x", some "blue", none⟩),
          (102, ⟨some "x", some "x", some "blue", none⟩)], []⟩
        [100]).nodes.length = 1 := by
  refine ⟨?_, ?_, rfl⟩
  · exact c8_strength_is_pattern_node_count.1 (fun _ => some [(9, 9)]) (0, []) "t"
      [⟨[1, 2]⟩, ⟨[1, 2, 3]⟩] ⟨[1, 2, 3]⟩ [(9, 9)] rfl rfl (by decide)
  · exact c8_strength_is_pattern_node_count.2
      ⟨[(1, ⟨some "add", some "a+b", none, none⟩)], []⟩ (0, []) "p"
      ⟨[(100, ⟨some "add", some "a+b", some "red2", none⟩),
        (101, ⟨some "x", some "x", some "blue", none⟩),
        (102, ⟨some "x", some "x", some "blue", none⟩)], []⟩
      [[(1, 100)]] rfl (by decide)
